import Mathlib

/-!
Verification of the DES core in `crypto_algs/cpp/DES_encryption.cpp`.

Bit blocks are modelled as `List Bool`, mirroring the C++ `std::vector<bool>`
container: index 0 of the list is the first bit of the vector (DES bit 1, the
most significant bit of the block).  The string conversion helpers
`string_to_bits` / `bits_to_string` in the C++ file are unimplemented stubs
(they return empty containers), so the embedding models the bit-level core:
every function below transcribes the corresponding C++ function acting on the
already-converted bit vectors.

`std::vector<bool>::operator[]` performs no bounds check; an out-of-range read
is undefined behaviour in C++.  The embedding uses `List.getD _ _ false`, which
returns `false` out of range; separate theorems establish that on inputs of the
declared lengths every access is in bounds, so the default is never exercised
there.
-/

/-- Bit blocks: ordered boolean sequences, as `std::vector<bool>` in the C++. -/
abbrev Bits := List Bool

/-- Initial Permutation (IP) table, 64 entries (`IP_TABLE` in the C++). -/
def IP_TABLE : List Nat :=
  [58, 50, 42, 34, 26, 18, 10, 2,
   60, 52, 44, 36, 28, 20, 12, 4,
   62, 54, 46, 38, 30, 22, 14, 6,
   64, 56, 48, 40, 32, 24, 16, 8,
   57, 49, 41, 33, 25, 17, 9, 1,
   59, 51, 43, 35, 27, 19, 11, 3,
   61, 53, 45, 37, 29, 21, 13, 5,
   63, 55, 47, 39, 31, 23, 15, 7]

/-- Expansion (E) table, 48 entries (`E_TABLE` in the C++). -/
def E_TABLE : List Nat :=
  [32, 1, 2, 3, 4, 5,
   4, 5, 6, 7, 8, 9,
   8, 9, 10, 11, 12, 13,
   12, 13, 14, 15, 16, 17,
   16, 17, 18, 19, 20, 21,
   20, 21, 22, 23, 24, 25,
   24, 25, 26, 27, 28, 29,
   28, 29, 30, 31, 32, 1]

/-- P-box permutation table, 32 entries (`P_TABLE` in the C++). -/
def P_TABLE : List Nat :=
  [16, 7, 20, 21, 29, 12, 28, 17,
   1, 15, 23, 26, 5, 18, 31, 10,
   2, 8, 24, 14, 32, 27, 3, 9,
   19, 13, 30, 6, 22, 11, 4, 25]

/-- The eight S-boxes, each 4 rows of 16 entries (`S_BOXES` in the C++). -/
def S_BOXES : List (List (List Nat)) :=
  [[[14, 4, 13, 1, 2, 15, 11, 8, 3, 10, 6, 12, 5, 9, 0, 7],
    [0, 15, 7, 4, 14, 2, 13, 1, 10, 6, 12, 11, 9, 5, 3, 8],
    [4, 1, 14, 8, 13, 6, 2, 11, 15, 12, 9, 7, 3, 10, 5, 0],
    [15, 12, 8, 2, 4, 9, 1, 7, 5, 11, 3, 14, 10, 0, 6, 13]],
   [[15, 1, 8, 14, 6, 11, 3, 4, 9, 7, 2, 13, 12, 0, 5, 10],
    [3, 13, 4, 7, 15, 2, 8, 14, 12, 0, 1, 10, 6, 9, 11, 5],
    [0, 14, 7, 11, 10, 4, 13, 1, 5, 8, 12, 6, 9, 3, 2, 15],
    [13, 8, 10, 1, 3, 15, 4, 2, 11, 6, 7, 12, 0, 5, 14, 9]],
   [[10, 0, 9, 14, 6, 3, 15, 5, 1, 13, 12, 7, 11, 4, 2, 8],
    [13, 7, 0, 9, 3, 4, 6, 10, 2, 8, 5, 14, 12, 11, 15, 1],
    [13, 6, 4, 9, 8, 15, 3, 0, 11, 1, 2, 12, 5, 10, 14, 7],
    [1, 10, 13, 0, 6, 9, 8, 7, 4, 15, 14, 3, 11, 5, 2, 12]],
   [[7, 13, 14, 3, 0, 6, 9, 10, 1, 2, 8, 5, 11, 12, 4, 15],
    [13, 8, 11, 5, 6, 15, 0, 3, 4, 7, 2, 12, 1, 10, 14, 9],
    [10, 6, 9, 0, 12, 11, 7, 13, 15, 1, 3, 14, 5, 2, 8, 4],
    [3, 15, 0, 6, 10, 1, 13, 8, 9, 4, 5, 11, 12, 7, 2, 14]],
   [[2, 12, 4, 1, 7, 10, 11, 6, 8, 5, 3, 15, 13, 0, 14, 9],
    [14, 11, 2, 12, 4, 7, 13, 1, 5, 0, 15, 10, 3, 9, 8, 6],
    [4, 2, 1, 11, 10, 13, 7, 8, 15, 9, 12, 5, 6, 3, 0, 14],
    [11, 8, 12, 7, 1, 14, 2, 13, 6, 15, 0, 9, 10, 4, 5, 3]],
   [[12, 1, 10, 15, 9, 2, 6, 8, 0, 13, 3, 4, 14, 7, 5, 11],
    [10, 15, 4, 2, 7, 12, 9, 5, 6, 1, 13, 14, 0, 11, 3, 8],
    [9, 14, 15, 5, 2, 8, 12, 3, 7, 0, 4, 10, 1, 13, 11, 6],
    [4, 3, 2, 12, 9, 5, 15, 10, 11, 14, 1, 7, 6, 0, 8, 13]],
   [[4, 11, 2, 14, 15, 0, 8, 13, 3, 12, 9, 7, 5, 10, 6, 1],
    [13, 0, 11, 7, 4, 9, 1, 10, 14, 3, 5, 12, 2, 15, 8, 6],
    [1, 4, 11, 13, 12, 3, 7, 14, 10, 15, 6, 8, 0, 5, 9, 2],
    [6, 11, 13, 8, 1, 4, 10, 7, 9, 5, 0, 15, 14, 2, 3, 12]],
   [[13, 2, 8, 4, 6, 15, 11, 1, 10, 9, 3, 14, 5, 0, 12, 7],
    [1, 15, 13, 8, 10, 3, 7, 4, 12, 5, 6, 11, 0, 14, 9, 2],
    [7, 11, 4, 1, 9, 12, 14, 2, 0, 6, 10, 13, 15, 3, 5, 8],
    [2, 1, 14, 7, 4, 10, 8, 13, 15, 12, 9, 0, 3, 5, 6, 11]]]

/-- Permuted Choice 1 table, 56 entries (`PC1_TABLE` in the C++). -/
def PC1_TABLE : List Nat :=
  [57, 49, 41, 33, 25, 17, 9, 1, 58, 50, 42, 34, 26, 18,
   10, 2, 59, 51, 43, 35, 27, 19, 11, 3, 60, 52, 44, 36,
   63, 55, 47, 39, 31, 23, 15, 7, 62, 54, 46, 38, 30, 22,
   14, 6, 61, 53, 45, 37, 29, 21, 13, 5, 28, 20, 12, 4]

/-- Permuted Choice 2 table, 48 entries (`PC2_TABLE` in the C++). -/
def PC2_TABLE : List Nat :=
  [14, 17, 11, 24, 1, 5, 3, 28, 15, 6, 21, 10,
   23, 19, 12, 4, 26, 8, 16, 7, 27, 20, 13, 2,
   41, 52, 31, 37, 47, 55, 30, 40, 51, 45, 33, 48,
   44, 49, 39, 56, 34, 53, 46, 42, 50, 36, 29, 32]

/-- Per-round left-shift amounts (`SHIFT_SCHEDULE` in the C++). -/
def SHIFT_SCHEDULE : List Nat :=
  [1, 1, 2, 2, 2, 2, 2, 2, 1, 2, 2, 2, 2, 2, 2, 1]

/-- Inverse Initial Permutation table, 64 entries (`IP_INV_TABLE` in the C++). -/
def IP_INV_TABLE : List Nat :=
  [40, 8, 48, 16, 56, 24, 64, 32, 39, 7, 47, 15, 55, 23, 63, 31,
   38, 6, 46, 14, 54, 22, 62, 30, 37, 5, 45, 13, 53, 21, 61, 29,
   36, 4, 44, 12, 52, 20, 60, 28, 35, 3, 43, 11, 51, 19, 59, 27,
   34, 2, 42, 10, 50, 18, 58, 26, 33, 1, 41, 9, 49, 17, 57, 25]

/-- `apply_permutation` from the C++: `output[i] = input[table[i] - 1]`.
The C++ passes `table_size` separately, but at every call site it equals the
table array's length, so the table is modelled as a list and the loop as a map
over it.  An out-of-range read (UB in C++) yields the default `false` here. -/
def apply_permutation (input : Bits) (table : List Nat) : Bits :=
  table.map (fun t => input.getD (t - 1) false)

/-- `circular_left_shift` from the C++: `std::rotate(v.begin(), v.begin()+s,
v.end())`, i.e. the first `s` elements move to the back.  (The C++ is UB for
`s` greater than the size; every call passes a schedule value of 1 or 2 on a
28-bit half.) -/
def circular_left_shift (input : Bits) (shift_amount : Nat) : Bits :=
  input.drop shift_amount ++ input.take shift_amount

/-- `xor_bits` from the C++: elementwise XOR.  The C++ loops over `a.size()`
(UB if `b` is shorter); every call site passes equal-length vectors, where
`zipWith` agrees with it. -/
def xor_bits (a b : Bits) : Bits :=
  List.zipWith Bool.xor a b

/-- Implicit bool-to-int conversion used by the C++ row/column computations. -/
def bitToNat (b : Bool) : Nat :=
  if b then 1 else 0

/-- One iteration of the `s_box_substitution` loop: the 6-bit chunk `i` of the
input is turned into row `2*bit0 + bit5` and column `8*bit1 + 4*bit2 + 2*bit3 +
bit4`, and the looked-up 4-bit value is emitted most-significant bit first. -/
def s_box_chunk (input : Bits) (i : Nat) : Bits :=
  let chunk := (input.drop (6 * i)).take 6
  let row := 2 * bitToNat (chunk.getD 0 false) + bitToNat (chunk.getD 5 false)
  let col := 8 * bitToNat (chunk.getD 1 false) + 4 * bitToNat (chunk.getD 2 false)
    + 2 * bitToNat (chunk.getD 3 false) + bitToNat (chunk.getD 4 false)
  let v := ((S_BOXES.getD i []).getD row []).getD col 0
  [v.testBit 3, v.testBit 2, v.testBit 1, v.testBit 0]

/-- `s_box_substitution` from the C++: the loop writes chunk `i`'s four output
bits at positions `4*i .. 4*i+3`, which is exactly the concatenation of the
eight chunk outputs. -/
def s_box_substitution (input : Bits) : Bits :=
  ((List.range 8).map (s_box_chunk input)).flatten

/-- The round-key loop of `generate_round_keys` (lines 211-223 of the C++):
for each schedule entry both halves are rotated and PC-2 is applied to their
concatenation.  Returns the keys together with the final `(C, D)` halves (the
C++ keeps them in the mutable locals `c_half`, `d_half`). -/
def round_keys_loop : List Nat → Bits → Bits → List Bits × Bits × Bits
  | [], c, d => ([], c, d)
  | s :: rest, c, d =>
    (apply_permutation (circular_left_shift c s ++ circular_left_shift d s) PC2_TABLE ::
        (round_keys_loop rest (circular_left_shift c s) (circular_left_shift d s)).1,
      (round_keys_loop rest (circular_left_shift c s) (circular_left_shift d s)).2)

/-- `generate_round_keys` from the C++, starting from the 64-bit key block
(the C++ first calls the unimplemented `string_to_bits` stub on the hex
string; the bit-level schedule beginning at PC-1 is modelled). -/
def generate_round_keys (key : Bits) : List Bits :=
  let pc1_key := apply_permutation key PC1_TABLE
  (round_keys_loop SHIFT_SCHEDULE (pc1_key.take 28) (pc1_key.drop 28)).1

/-- One iteration of the 16-round loop of `des_encrypt` (lines 244-264):
expansion, round-key XOR, S-box substitution, P-box permutation, XOR with the
left half, and the swap (old right becomes new left). -/
def enc_round (halves : Bits × Bits) (round_key : Bits) : Bits × Bits :=
  let expanded_right := apply_permutation halves.2 E_TABLE
  let xored_expanded := xor_bits expanded_right round_key
  let s_box_output := s_box_substitution xored_expanded
  let p_box_output := apply_permutation s_box_output P_TABLE
  (halves.2, xor_bits halves.1 p_box_output)

/-- One iteration of the 16-round loop of `des_decrypt` (lines 293-302),
transcribed separately from `enc_round`; the C++ bodies are textually
identical. -/
def dec_round (halves : Bits × Bits) (round_key : Bits) : Bits × Bits :=
  let expanded_right := apply_permutation halves.2 E_TABLE
  let xored_expanded := xor_bits expanded_right round_key
  let s_box_output := s_box_substitution xored_expanded
  let p_box_output := apply_permutation s_box_output P_TABLE
  (halves.2, xor_bits halves.1 p_box_output)

/-- The block transform of `des_encrypt` (steps 3-7, lines 237-272): initial
permutation, split into halves, 16 Feistel rounds over the supplied round
keys, re-assembly as Right before Left, inverse initial permutation.  The C++
loop runs 16 times indexing `round_keys[i]`; the fold runs once per supplied
key, which agrees since the schedule always has 16 entries. -/
def des_transform (block : Bits) (round_keys : List Bits) : Bits :=
  let permuted := apply_permutation block IP_TABLE
  let final := round_keys.foldl enc_round (permuted.take 32, permuted.drop 32)
  apply_permutation (final.2 ++ final.1) IP_INV_TABLE

/-- `des_encrypt` from the C++ at the bit level: key schedule followed by the
forward block transform. -/
def des_encrypt (block : Bits) (key : Bits) : Bits :=
  des_transform block (generate_round_keys key)

/-- `des_decrypt` from the C++ at the bit level (lines 282-310), transcribed
independently: the round keys are reversed, then the same pipeline runs with
`dec_round`. -/
def des_decrypt (block : Bits) (key : Bits) : Bits :=
  let round_keys := (generate_round_keys key).reverse
  let permuted := apply_permutation block IP_TABLE
  let final := round_keys.foldl dec_round (permuted.take 32, permuted.drop 32)
  apply_permutation (final.2 ++ final.1) IP_INV_TABLE

/-- A 64-bit machine word rendered most-significant bit first, used to state
published DES test vectors over the bit-list data model. -/
def nat_to_bits64 (n : Nat) : Bits :=
  (List.range 64).map (fun i => n.testBit (63 - i))

/-- The identity permutation table on `n` bits (entry `i` holds `i + 1`). -/
def identity_table (n : Nat) : List Nat :=
  (List.range n).map (fun i => i + 1)

/-- Composition of permutation tables: applying `t1` then `t2` to a block
reads, at output position `i`, source bit `t1[t2[i] - 1]`. -/
def table_compose (t1 t2 : List Nat) : List Nat :=
  t2.map (fun t => t1.getD (t - 1) 0)

/-- The Feistel round function `f(R, k)` shared by both round loops:
expansion, key XOR, S-box substitution, P-box permutation. -/
def round_f (r k : Bits) : Bits :=
  apply_permutation (s_box_substitution (xor_bits (apply_permutation r E_TABLE) k)) P_TABLE

/-- The row index the specification assigns to chunk `i` of the substitution
input: twice bit 0 of the chunk plus bit 5 (chunk bit `k` is input bit
`6*i + k`). -/
def spec_row (input : Bits) (i : Nat) : Nat :=
  2 * bitToNat (input.getD (6 * i) false) + bitToNat (input.getD (6 * i + 5) false)

/-- The column index the specification assigns to chunk `i`: bits 1-4 of the
chunk read most-significant first. -/
def spec_col (input : Bits) (i : Nat) : Nat :=
  8 * bitToNat (input.getD (6 * i + 1) false) + 4 * bitToNat (input.getD (6 * i + 2) false)
    + 2 * bitToNat (input.getD (6 * i + 3) false) + bitToNat (input.getD (6 * i + 4) false)

/-- The S-box value the specification assigns to chunk `i`:
`S_BOXES[i][spec_row][spec_col]`. -/
def spec_s_val (input : Bits) (i : Nat) : Nat :=
  ((S_BOXES.getD i []).getD (spec_row input i) []).getD (spec_col input i) 0

/-! ### Basic lemmas about the bit-vector primitives -/

lemma length_apply_permutation (input : Bits) (table : List Nat) :
    (apply_permutation input table).length = table.length := by
  simp [apply_permutation]

lemma getD_map_of_lt {α β : Type} (f : α → β) (d : β) (d' : α) (l : List α) (j : Nat)
    (h : j < l.length) : (l.map f).getD j d = f (l.getD j d') := by
  have h1 : l[j]? = some l[j] := List.getElem?_eq_getElem h
  simp [h1]

lemma range_map_getD {α : Type} (d : α) (b : List α) :
    (List.range b.length).map (fun i => b.getD i d) = b := by
  induction b with
  | nil => rfl
  | cons x xs ih =>
    rw [List.length_cons, List.range_succ_eq_map, List.map_cons, List.map_map]
    have h2 : (fun i => (x :: xs).getD i d) ∘ Nat.succ = fun i => xs.getD i d := by
      funext i
      simp
    rw [h2, ih]
    rfl

lemma apply_permutation_identity (b : Bits) :
    apply_permutation b (identity_table b.length) = b := by
  unfold apply_permutation identity_table
  rw [List.map_map]
  have h : (fun t => b.getD (t - 1) false) ∘ (fun i => i + 1) = fun i => b.getD i false := by
    funext i
    simp
  rw [h, range_map_getD]

lemma apply_apply_eq_compose (b : Bits) (t1 t2 : List Nat)
    (h : ∀ t ∈ t2, t - 1 < t1.length) :
    apply_permutation (apply_permutation b t1) t2 = apply_permutation b (table_compose t1 t2) := by
  unfold apply_permutation table_compose
  rw [List.map_map]
  exact List.map_congr_left fun t ht => getD_map_of_lt _ _ 0 _ _ (h t ht)

lemma ip_ipinv_compose : table_compose IP_TABLE IP_INV_TABLE = identity_table 64 := by decide

lemma ipinv_ip_compose : table_compose IP_INV_TABLE IP_TABLE = identity_table 64 := by decide

lemma ipinv_entries_bound : ∀ t ∈ IP_INV_TABLE, t - 1 < IP_TABLE.length := by decide

lemma ip_entries_bound : ∀ t ∈ IP_TABLE, t - 1 < IP_INV_TABLE.length := by decide

lemma ip_then_ipinv (b : Bits) (hb : b.length = 64) :
    apply_permutation (apply_permutation b IP_TABLE) IP_INV_TABLE = b := by
  rw [apply_apply_eq_compose b IP_TABLE IP_INV_TABLE ipinv_entries_bound, ip_ipinv_compose,
    ← hb, apply_permutation_identity]

lemma ipinv_then_ip (b : Bits) (hb : b.length = 64) :
    apply_permutation (apply_permutation b IP_INV_TABLE) IP_TABLE = b := by
  rw [apply_apply_eq_compose b IP_INV_TABLE IP_TABLE ip_entries_bound, ipinv_ip_compose,
    ← hb, apply_permutation_identity]

lemma length_xor_bits (a b : Bits) : (xor_bits a b).length = min a.length b.length := by
  simp [xor_bits]

lemma xor_bits_cancel (a : Bits) : ∀ b : Bits, a.length ≤ b.length →
    xor_bits (xor_bits a b) b = a := by
  induction a with
  | nil => intro b _; cases b <;> rfl
  | cons x xs ih =>
    intro b h
    cases b with
    | nil => simp at h
    | cons y ys =>
      show Bool.xor (Bool.xor x y) y :: xor_bits (xor_bits xs ys) ys = x :: xs
      rw [ih ys (by simpa using h)]
      cases x <;> cases y <;> rfl

/-! ### The Feistel rounds and their inversion -/

lemma enc_round_eq (l r k : Bits) : enc_round (l, r) k = (r, xor_bits l (round_f r k)) := rfl

lemma dec_round_eq_enc_round : dec_round = enc_round := rfl

lemma length_round_f (r k : Bits) : (round_f r k).length = 32 := by
  rw [round_f, length_apply_permutation]
  rfl

lemma foldl_enc_round_lengths : ∀ (ks : List Bits) (l r : Bits), l.length = 32 → r.length = 32 →
    (ks.foldl enc_round (l, r)).1.length = 32 ∧ (ks.foldl enc_round (l, r)).2.length = 32 := by
  intro ks
  induction ks with
  | nil => intro l r hl hr; exact ⟨hl, hr⟩
  | cons k ks ih =>
    intro l r hl hr
    rw [List.foldl_cons, enc_round_eq]
    exact ih r _ hr (by simp [length_xor_bits, length_round_f, hl])

lemma rounds_invert : ∀ (ks : List Bits) (l r : Bits), l.length = 32 → r.length = 32 →
    ks.reverse.foldl enc_round ((ks.foldl enc_round (l, r)).2, (ks.foldl enc_round (l, r)).1)
      = (r, l) := by
  intro ks
  induction ks with
  | nil => intro l r _ _; rfl
  | cons k ks ih =>
    intro l r hl hr
    have hx : (xor_bits l (round_f r k)).length = 32 := by
      simp [length_xor_bits, length_round_f, hl]
    have h1 : List.foldl enc_round (l, r) (k :: ks)
        = List.foldl enc_round (r, xor_bits l (round_f r k)) ks := rfl
    rw [h1, List.reverse_cons, List.foldl_append,
      ih r (xor_bits l (round_f r k)) hr hx]
    show (r, xor_bits (xor_bits l (round_f r k)) (round_f r k)) = (r, l)
    rw [xor_bits_cancel l (round_f r k) (by simp [length_round_f, hl])]

/-! ### Key-schedule lemmas -/

lemma round_keys_loop_shape : ∀ (ss : List Nat) (c d : Bits),
    (round_keys_loop ss c d).1.length = ss.length ∧
    ∀ rk ∈ (round_keys_loop ss c d).1, rk.length = 48 := by
  intro ss
  induction ss with
  | nil =>
    intro c d
    exact ⟨rfl, by intro rk h; simp [round_keys_loop] at h⟩
  | cons s rest ih =>
    intro c d
    constructor
    · show (apply_permutation _ PC2_TABLE :: _).length = rest.length + 1
      rw [List.length_cons, (ih _ _).1]
    · intro rk hrk
      have hrk' : rk ∈ apply_permutation
            (circular_left_shift c s ++ circular_left_shift d s) PC2_TABLE ::
          (round_keys_loop rest (circular_left_shift c s) (circular_left_shift d s)).1 := hrk
      rcases List.mem_cons.mp hrk' with h | h
      · rw [h, length_apply_permutation]
        rfl
      · exact (ih _ _).2 rk h

lemma generate_round_keys_shape (key : Bits) :
    (generate_round_keys key).length = 16 ∧
    ∀ rk ∈ generate_round_keys key, rk.length = 48 := by
  constructor
  · show (round_keys_loop SHIFT_SCHEDULE ((apply_permutation key PC1_TABLE).take 28)
        ((apply_permutation key PC1_TABLE).drop 28)).1.length = 16
    rw [(round_keys_loop_shape SHIFT_SCHEDULE _ _).1]
    rfl
  · intro rk hrk
    exact (round_keys_loop_shape SHIFT_SCHEDULE _ _).2 rk hrk

lemma circular_left_shift_eq_rotate (c : Bits) (s : Nat) (h : s ≤ c.length) :
    circular_left_shift c s = c.rotate s := by
  rw [circular_left_shift, List.rotate_eq_drop_append_take h]

lemma round_keys_loop_state : ∀ (ss : List Nat) (n : Nat) (c d : Bits),
    c.length = n → d.length = n → (∀ s ∈ ss, s ≤ n) →
    (round_keys_loop ss c d).2 = (c.rotate ss.sum, d.rotate ss.sum) := by
  intro ss
  induction ss with
  | nil =>
    intro n c d _ _ _
    show (c, d) = (c.rotate List.nil.sum, d.rotate List.nil.sum)
    simp
  | cons s rest ih =>
    intro n c d hc hd hs
    have hsn : s ≤ n := hs s (List.mem_cons_self _ _)
    have hc' : circular_left_shift c s = c.rotate s :=
      circular_left_shift_eq_rotate c s (by rw [hc]; exact hsn)
    have hd' : circular_left_shift d s = d.rotate s :=
      circular_left_shift_eq_rotate d s (by rw [hd]; exact hsn)
    show (round_keys_loop rest (circular_left_shift c s) (circular_left_shift d s)).2 = _
    rw [hc', hd',
      ih n (c.rotate s) (d.rotate s) (by rw [List.length_rotate, hc])
        (by rw [List.length_rotate, hd]) (fun s' h' => hs s' (List.mem_cons_of_mem _ h')),
      List.rotate_rotate, List.rotate_rotate, List.sum_cons]

/-! ### The block transform and its inverse -/

lemma des_transform_eq (block : Bits) (ks : List Bits) :
    des_transform block ks =
      apply_permutation
        ((List.foldl enc_round ((apply_permutation block IP_TABLE).take 32,
            (apply_permutation block IP_TABLE).drop 32) ks).2 ++
          (List.foldl enc_round ((apply_permutation block IP_TABLE).take 32,
            (apply_permutation block IP_TABLE).drop 32) ks).1) IP_INV_TABLE := rfl

lemma length_des_transform (block : Bits) (ks : List Bits) :
    (des_transform block ks).length = 64 := by
  rw [des_transform_eq, length_apply_permutation]
  rfl

lemma des_transform_roundtrip (B : Bits) (ks : List Bits) (hB : B.length = 64) :
    des_transform (des_transform B ks) ks.reverse = B := by
  have hp : (apply_permutation B IP_TABLE).length = 64 := by
    rw [length_apply_permutation]
    rfl
  have hl0 : ((apply_permutation B IP_TABLE).take 32).length = 32 := by
    simp [hp]
  have hr0 : ((apply_permutation B IP_TABLE).drop 32).length = 32 := by
    simp [hp]
  obtain ⟨hf1, hf2⟩ := foldl_enc_round_lengths ks _ _ hl0 hr0
  rw [des_transform_eq (des_transform B ks) ks.reverse]
  rw [show apply_permutation (des_transform B ks) IP_TABLE =
      (List.foldl enc_round ((apply_permutation B IP_TABLE).take 32,
        (apply_permutation B IP_TABLE).drop 32) ks).2 ++
      (List.foldl enc_round ((apply_permutation B IP_TABLE).take 32,
        (apply_permutation B IP_TABLE).drop 32) ks).1 from by
    rw [des_transform_eq B ks]
    exact ipinv_then_ip _ (by rw [List.length_append, hf1, hf2])]
  rw [List.take_left' hf2, List.drop_left' hf2,
    rounds_invert ks _ _ hl0 hr0]
  show apply_permutation ((apply_permutation B IP_TABLE).take 32 ++
    (apply_permutation B IP_TABLE).drop 32) IP_INV_TABLE = B
  rw [List.take_append_drop]
  exact ip_then_ipinv B hB

/-! ### S-box indexing lemmas -/

lemma length_s_box_chunk (input : Bits) (i : Nat) : (s_box_chunk input i).length = 4 := rfl

lemma flatten_getD_uniform {α : Type} (d : α) (L : Nat) : ∀ (ls : List (List α)) (i j : Nat),
    (∀ x ∈ ls, x.length = L) → i < ls.length → j < L →
    ls.flatten.getD (L * i + j) d = (ls.getD i []).getD j d := by
  intro ls
  induction ls with
  | nil =>
    intro i j _ hi _
    simp at hi
  | cons x rest ih =>
    intro i j hall hi hj
    have hx : x.length = L := hall x (List.mem_cons_self _ _)
    cases i with
    | zero =>
      rw [Nat.mul_zero, Nat.zero_add, List.flatten_cons]
      simp only [List.getD_eq_getElem?_getD]
      rw [List.getElem?_append_left (by rw [hx]; exact hj)]
      simp
    | succ i' =>
      rw [List.flatten_cons,
        show L * (i' + 1) + j = x.length + (L * i' + j) by rw [hx]; ring]
      simp only [List.getD_eq_getElem?_getD]
      rw [List.getElem?_append_right (Nat.le_add_right _ _), Nat.add_sub_cancel_left]
      have h := ih i' j (fun y hy => hall y (List.mem_cons_of_mem _ hy))
        (by simpa using hi) hj
      simpa using h

lemma chunk_getD (input : Bits) (m k : Nat) (hk : k < 6) :
    ((input.drop m).take 6).getD k false = input.getD (m + k) false := by
  simp only [List.getD_eq_getElem?_getD]
  rw [List.getElem?_take_of_lt hk, List.getElem?_drop]

lemma length_s_box_substitution (input : Bits) : (s_box_substitution input).length = 32 := rfl

lemma s_box_chunk_getD (input : Bits) (i j : Nat) (hj : j < 4) :
    (s_box_chunk input i).getD j false = (spec_s_val input i).testBit (3 - j) := by
  have e0 : ((input.drop (6 * i)).take 6).getD 0 false = input.getD (6 * i) false := by
    have h := chunk_getD input (6 * i) 0 (by decide)
    rwa [Nat.add_zero] at h
  have e1 : ((input.drop (6 * i)).take 6).getD 1 false = input.getD (6 * i + 1) false :=
    chunk_getD input (6 * i) 1 (by decide)
  have e2 : ((input.drop (6 * i)).take 6).getD 2 false = input.getD (6 * i + 2) false :=
    chunk_getD input (6 * i) 2 (by decide)
  have e3 : ((input.drop (6 * i)).take 6).getD 3 false = input.getD (6 * i + 3) false :=
    chunk_getD input (6 * i) 3 (by decide)
  have e4 : ((input.drop (6 * i)).take 6).getD 4 false = input.getD (6 * i + 4) false :=
    chunk_getD input (6 * i) 4 (by decide)
  have e5 : ((input.drop (6 * i)).take 6).getD 5 false = input.getD (6 * i + 5) false :=
    chunk_getD input (6 * i) 5 (by decide)
  simp only [s_box_chunk, spec_s_val, spec_row, spec_col]
  rw [e0, e1, e2, e3, e4, e5]
  interval_cases j <;> rfl

lemma s_box_substitution_getD (input : Bits) (i j : Nat) (hi : i < 8) (hj : j < 4) :
    (s_box_substitution input).getD (4 * i + j) false
      = (spec_s_val input i).testBit (3 - j) := by
  rw [show s_box_substitution input = ((List.range 8).map (s_box_chunk input)).flatten from rfl]
  rw [flatten_getD_uniform false 4 _ i j
    (by
      intro x hx
      rcases List.mem_map.mp hx with ⟨k, _, rfl⟩
      exact length_s_box_chunk input k)
    (by simpa using hi) hj]
  rw [getD_map_of_lt (s_box_chunk input) [] 0 (List.range 8) i (by simpa using hi)]
  rw [show (List.range 8).getD i 0 = i from by
    simp only [List.getD_eq_getElem?_getD]
    rw [List.getElem?_eq_getElem (by simpa using hi)]
    simp]
  exact s_box_chunk_getD input i j hj

lemma s_box_bounds_bool : ∀ (b0 b1 b2 b3 b4 b5 : Bool), ∀ i < 8,
    2 * bitToNat b0 + bitToNat b5 ≤ 3 ∧
    8 * bitToNat b1 + 4 * bitToNat b2 + 2 * bitToNat b3 + bitToNat b4 ≤ 15 ∧
    ((S_BOXES.getD i []).getD (2 * bitToNat b0 + bitToNat b5) []).getD
      (8 * bitToNat b1 + 4 * bitToNat b2 + 2 * bitToNat b3 + bitToNat b4) 0 ≤ 15 := by
  decide

/-! ### The claims -/

set_option maxRecDepth 4000 in
/-- C1: for the all-zero 64-bit plaintext block and the all-zero 64-bit master
key, the key schedule of `generate_round_keys` followed by the forward
16-round block transform of `des_encrypt` produces the published DES
ciphertext `0x8CA64DE9C1B123A7` bit for bit. -/
theorem c1_zero_key_zero_block_known_answer :
    des_encrypt (List.replicate 64 false) (List.replicate 64 false)
      = nat_to_bits64 0x8CA64DE9C1B123A7 := by
  decide

/-- C2: for every 64-bit block `B` and every 64-bit master key `K`, decrypting
the encryption of `B` under `K` recovers `B`: equivalently, applying the
16-round transform with the round keys of `K` in forward order and then again
with the same round keys reversed yields the original block. -/
theorem c2_decrypt_encrypt_roundtrip (B K : Bits) (hB : B.length = 64)
    (hK : K.length = 64) :
    des_decrypt (des_encrypt B K) K = B ∧
    des_transform (des_transform B (generate_round_keys K))
      ((generate_round_keys K).reverse) = B := by
  have h := des_transform_roundtrip B (generate_round_keys K) hB
  exact ⟨h, h⟩

/-- Witness for C2 at the all-zero block and key. -/
theorem c2_roundtrip_witness :
    des_decrypt (des_encrypt (List.replicate 64 false) (List.replicate 64 false))
      (List.replicate 64 false) = List.replicate 64 false :=
  (c2_decrypt_encrypt_roundtrip (List.replicate 64 false) (List.replicate 64 false)
    (by simp) (by simp)).1

/-- C3: `des_decrypt` computes exactly `des_encrypt`'s block transform applied
with the round keys reversed: its round body is identical to the encryption
round body, and its whole pipeline equals `des_transform` on the reversed key
sequence. -/
theorem c3_decrypt_equals_reversed_encrypt_transform :
    (∀ (halves : Bits × Bits) (k : Bits), dec_round halves k = enc_round halves k) ∧
    ∀ block key : Bits,
      des_decrypt block key = des_transform block ((generate_round_keys key).reverse) :=
  ⟨fun _ _ => rfl, fun _ _ => rfl⟩

/-- C4 counterexample: an 8-bit (hence invalid) key is not rejected:
`generate_round_keys` still returns a full schedule of sixteen 48-bit round
keys computed from it, and `des_encrypt` still returns a 64-bit cipher block;
no failure outcome exists (in the C++ the out-of-range reads are undefined
behaviour, modelled here as reading `false`). -/
theorem c4_counterexample_silent_schedule_from_invalid_key :
    (generate_round_keys (List.replicate 8 false)).length = 16 ∧
    ((generate_round_keys (List.replicate 8 false)).all fun rk => rk.length == 48) = true ∧
    (des_encrypt (List.replicate 8 false) (List.replicate 8 false)).length = 64 := by
  decide

/-- C4 (amended): the operations perform no input validation and report no
failure outcome: for a key and block of any bit-length whatsoever,
`generate_round_keys` returns sixteen 48-bit round keys and `des_encrypt`
returns a 64-bit result, silently computed from the invalid input. -/
theorem c4_amended_no_validation_always_full_result (block key : Bits) :
    (generate_round_keys key).length = 16 ∧
    (∀ rk ∈ generate_round_keys key, rk.length = 48) ∧
    (des_encrypt block key).length = 64 :=
  ⟨(generate_round_keys_shape key).1, (generate_round_keys_shape key).2,
    length_des_transform block (generate_round_keys key)⟩

/-- C5: for every valid 64-bit master key, `generate_round_keys` returns an
ordered sequence of exactly 16 round keys, each exactly 48 bits long. -/
theorem c5_sixteen_round_keys_of_48_bits (key : Bits) (hkey : key.length = 64) :
    (generate_round_keys key).length = 16 ∧
    ∀ rk ∈ generate_round_keys key, rk.length = 48 :=
  generate_round_keys_shape key

/-- Witness for C5 at the all-zero key. -/
theorem c5_witness_zero_key :
    (generate_round_keys (List.replicate 64 false)).length = 16 :=
  (c5_sixteen_round_keys_of_48_bits (List.replicate 64 false) (by simp)).1

/-- C6: for every 48-bit substitution input, chunk `i`'s lookup uses row
`2*bit0 + bit5` and column `8*bit1 + 4*bit2 + 2*bit3 + bit4` of chunk `i`
(chunk bit `k` being input bit `6*i + k`), the looked-up `S_BOXES` value is
emitted most-significant bit first at output positions `4*i .. 4*i+3`, and the
complete output is 32 bits. -/
theorem c6_s_box_semantics (input : Bits) (hlen : input.length = 48) (i j : Nat)
    (hi : i < 8) (hj : j < 4) :
    (s_box_substitution input).length = 32 ∧
    (s_box_substitution input).getD (4 * i + j) false
      = (spec_s_val input i).testBit (3 - j) :=
  ⟨length_s_box_substitution input, s_box_substitution_getD input i j hi hj⟩

/-- Witness for C6 at the all-zero 48-bit input, chunk 0, output bit 0. -/
theorem c6_witness_zero_input :
    (s_box_substitution (List.replicate 48 false)).length = 32 ∧
    (s_box_substitution (List.replicate 48 false)).getD (4 * 0 + 0) false
      = (spec_s_val (List.replicate 48 false) 0).testBit (3 - 0) :=
  c6_s_box_semantics (List.replicate 48 false) (by simp) 0 0 (by decide) (by decide)

/-- C7: for every 6-bit chunk of every substitution input and every S-box
index, the derived row is at most 3, the derived column at most 15, and the
`S_BOXES` lookup yields a 4-bit value (at most 15), so every lookup is in
bounds. -/
theorem c7_s_box_lookup_bounds (input : Bits) (i : Nat) (hi : i < 8) :
    2 * bitToNat (((input.drop (6 * i)).take 6).getD 0 false)
        + bitToNat (((input.drop (6 * i)).take 6).getD 5 false) ≤ 3 ∧
    8 * bitToNat (((input.drop (6 * i)).take 6).getD 1 false)
        + 4 * bitToNat (((input.drop (6 * i)).take 6).getD 2 false)
        + 2 * bitToNat (((input.drop (6 * i)).take 6).getD 3 false)
        + bitToNat (((input.drop (6 * i)).take 6).getD 4 false) ≤ 15 ∧
    ((S_BOXES.getD i []).getD
        (2 * bitToNat (((input.drop (6 * i)).take 6).getD 0 false)
          + bitToNat (((input.drop (6 * i)).take 6).getD 5 false)) []).getD
      (8 * bitToNat (((input.drop (6 * i)).take 6).getD 1 false)
        + 4 * bitToNat (((input.drop (6 * i)).take 6).getD 2 false)
        + 2 * bitToNat (((input.drop (6 * i)).take 6).getD 3 false)
        + bitToNat (((input.drop (6 * i)).take 6).getD 4 false)) 0 ≤ 15 :=
  s_box_bounds_bool (((input.drop (6 * i)).take 6).getD 0 false)
    (((input.drop (6 * i)).take 6).getD 1 false)
    (((input.drop (6 * i)).take 6).getD 2 false)
    (((input.drop (6 * i)).take 6).getD 3 false)
    (((input.drop (6 * i)).take 6).getD 4 false)
    (((input.drop (6 * i)).take 6).getD 5 false) i hi

/-- Witness for C7 at the empty input and S-box 0. -/
theorem c7_witness_empty_input :
    2 * bitToNat (((([] : Bits).drop (6 * 0)).take 6).getD 0 false)
        + bitToNat (((([] : Bits).drop (6 * 0)).take 6).getD 5 false) ≤ 3 ∧
    8 * bitToNat (((([] : Bits).drop (6 * 0)).take 6).getD 1 false)
        + 4 * bitToNat (((([] : Bits).drop (6 * 0)).take 6).getD 2 false)
        + 2 * bitToNat (((([] : Bits).drop (6 * 0)).take 6).getD 3 false)
        + bitToNat (((([] : Bits).drop (6 * 0)).take 6).getD 4 false) ≤ 15 ∧
    ((S_BOXES.getD 0 []).getD
        (2 * bitToNat (((([] : Bits).drop (6 * 0)).take 6).getD 0 false)
          + bitToNat (((([] : Bits).drop (6 * 0)).take 6).getD 5 false)) []).getD
      (8 * bitToNat (((([] : Bits).drop (6 * 0)).take 6).getD 1 false)
        + 4 * bitToNat (((([] : Bits).drop (6 * 0)).take 6).getD 2 false)
        + 2 * bitToNat (((([] : Bits).drop (6 * 0)).take 6).getD 3 false)
        + bitToNat (((([] : Bits).drop (6 * 0)).take 6).getD 4 false)) 0 ≤ 15 :=
  c7_s_box_lookup_bounds [] 0 (by decide)

/-- C8: every entry of every fixed permutation table lies in
`[1, input_length]` for its declared input length, and consequently
`apply_permutation` never reads outside an input of the declared length. -/
theorem c8_permutation_tables_in_range :
    (∀ t ∈ IP_TABLE, 1 ≤ t ∧ t ≤ 64) ∧
    (∀ t ∈ IP_INV_TABLE, 1 ≤ t ∧ t ≤ 64) ∧
    (∀ t ∈ PC1_TABLE, 1 ≤ t ∧ t ≤ 64) ∧
    (∀ t ∈ PC2_TABLE, 1 ≤ t ∧ t ≤ 56) ∧
    (∀ t ∈ E_TABLE, 1 ≤ t ∧ t ≤ 32) ∧
    (∀ t ∈ P_TABLE, 1 ≤ t ∧ t ≤ 32) ∧
    ∀ (input : Bits) (table : List Nat) (n : Nat),
      (∀ t ∈ table, 1 ≤ t ∧ t ≤ n) → input.length = n →
      ∀ t ∈ table, t - 1 < input.length := by
  refine ⟨by decide, by decide, by decide, by decide, by decide, by decide, ?_⟩
  intro input table n hbound hlen t ht
  have h := hbound t ht
  omega

/-- Witness for C8: entry 58 of `IP_TABLE` reads inside a 64-bit block. -/
theorem c8_witness_ip_access :
    (58 : Nat) - 1 < (List.replicate 64 false : Bits).length :=
  c8_permutation_tables_in_range.2.2.2.2.2.2 (List.replicate 64 false) IP_TABLE 64
    (by decide) (by simp) 58 (by decide)

/-- C9: `IP_INV_TABLE` is the inverse permutation of `IP_TABLE`: on every
64-bit block, applying one and then the other (in either order) returns the
block unchanged. -/
theorem c9_ip_inv_is_inverse_of_ip (b : Bits) (hb : b.length = 64) :
    apply_permutation (apply_permutation b IP_TABLE) IP_INV_TABLE = b ∧
    apply_permutation (apply_permutation b IP_INV_TABLE) IP_TABLE = b :=
  ⟨ip_then_ipinv b hb, ipinv_then_ip b hb⟩

/-- Witness for C9 at the all-zero block. -/
theorem c9_witness_zero_block :
    apply_permutation (apply_permutation (List.replicate 64 false) IP_TABLE) IP_INV_TABLE
      = List.replicate 64 false :=
  (c9_ip_inv_is_inverse_of_ip (List.replicate 64 false) (by simp)).1

/-- C10: the 16 entries of `SHIFT_SCHEDULE` sum to 28; `generate_round_keys`
is the key list computed by `round_keys_loop`; and over all 16 rounds of that
loop the cumulative circular left shift of each 28-bit half is a full
rotation, so the final `C` and `D` halves equal their initial values. -/
theorem c10_shift_schedule_full_rotation :
    SHIFT_SCHEDULE.sum = 28 ∧
    (∀ key : Bits, generate_round_keys key =
      (round_keys_loop SHIFT_SCHEDULE ((apply_permutation key PC1_TABLE).take 28)
        ((apply_permutation key PC1_TABLE).drop 28)).1) ∧
    ∀ c d : Bits, c.length = 28 → d.length = 28 →
      (round_keys_loop SHIFT_SCHEDULE c d).2 = (c, d) := by
  refine ⟨by decide, fun key => rfl, fun c d hc hd => ?_⟩
  rw [round_keys_loop_state SHIFT_SCHEDULE 28 c d hc hd (by decide)]
  have h1 : c.rotate SHIFT_SCHEDULE.sum = c := by
    rw [show SHIFT_SCHEDULE.sum = 28 from by decide, ← hc, List.rotate_length]
  have h2 : d.rotate SHIFT_SCHEDULE.sum = d := by
    rw [show SHIFT_SCHEDULE.sum = 28 from by decide, ← hd, List.rotate_length]
  rw [h1, h2]

/-- Witness for C10 at all-zero 28-bit halves. -/
theorem c10_witness_zero_halves :
    (round_keys_loop SHIFT_SCHEDULE (List.replicate 28 false) (List.replicate 28 false)).2
      = (List.replicate 28 false, List.replicate 28 false) :=
  c10_shift_schedule_full_rotation.2.2 (List.replicate 28 false) (List.replicate 28 false)
    (by simp) (by simp)
